import Mathlib

/-!
Verification development for the expression type-checking layer in
`lib/Sema/TypeCheckExpr.cpp`: the infix-sequence folder (precedence
climbing with pseudo-operators), the reference-mutability classifiers,
rvalue-type resolution for reference-storage declarations, and the
closure capture analyzer.

The embedding is a direct translation of the source functions.  Machine
pointers that may be null are modelled with `Option`; the diagnostic
sink is threaded explicitly as a list; source locations and implicit
bits, which no property here depends on, are not tracked.  The folder's
C++ recursion is modelled with an explicit fuel parameter: exhausting
fuel yields the distinguished result `FoldRes.fuelOut`, and undefined
behaviour (dereferencing a null operator pointer, or indexing an empty
slice) yields `FoldRes.crash`.
-/

namespace SwiftSema

/-- Operator associativity, mirroring `enum class Associativity`. -/
inductive Assoc where
  | left
  | right
  | none
deriving DecidableEq

/-- Infix operator attributes (`InfixData`): precedence and associativity.
In the source the precedence is an `unsigned char`; table entries and the
hard-coded values all lie in `0..255`, which the claims never exceed, so it
is carried as `Nat`. -/
structure InfixData where
  prec : Nat
  assoc : Assoc
deriving DecidableEq

def InfixData.isLeftAssociative (d : InfixData) : Bool := d.assoc == Assoc.left

def InfixData.isRightAssociative (d : InfixData) : Bool := d.assoc == Assoc.right

def InfixData.isNonAssociative (d : InfixData) : Bool := d.assoc == Assoc.none

/-- Diagnostic kinds emitted by the code modelled here. -/
inductive Diag where
  | unknownBinop
  | nonAssocAdjacent
  | incompatibleAssoc
  | optionalIntrinsicsNotFound
deriving DecidableEq

/-- Expression nodes, restricted to the kinds the sequence folder
inspects.  Operands and operator declaration references are identified by
numbers; `DeclRefExpr` and `OverloadedDeclRefExpr` in operator position
both look up by name, so a single `opRef` constructor covers both.
Pseudo-operator nodes exist in an unfolded form (as produced by the
parser, carrying their pre-parsed parts) and a folded form (after
`makeBinOp` mutates them).  A cast node carries its forced flag
(`getForceLoc().isValid()`) and a type identifier. -/
inductive Expr where
  | operand : Nat → Expr
  | opRef : Nat → Expr
  | ifUnfolded : Expr → Expr
  | ifFolded : Expr → Expr → Expr → Expr
  | assignUnfolded : Expr
  | assignFolded : Expr → Expr → Expr
  | castUnfolded : Bool → Nat → Expr
  | castFolded : Bool → Nat → Expr → Expr
  | forceValue : Expr → Expr
  | binary : Expr → Expr → Expr → Expr
deriving DecidableEq

/-- The infix-operator lookup oracle (`SourceFile::lookupInfixOperator`),
an external collaborator: operator name to attributes, or absent. -/
abbrev Env := Nat → Option InfixData

/-- `getInfixData`: fixed attributes for the three pseudo-operators;
declaration references consult the lookup oracle; anything else (or a
failed lookup) diagnoses `unknown_binop` and recovers with an
infinite-precedence (255, as `(unsigned char)~0U`) left-associative
operator.  `dyn_cast` also matches already-folded pseudo-operator nodes
(the source only `assert`s they are unfolded), hence the folded cases. -/
def getInfixData (env : Env) : Expr → InfixData × List Diag
  | .ifUnfolded _ => (⟨100, .right⟩, [])
  | .ifFolded _ _ _ => (⟨100, .right⟩, [])
  | .assignUnfolded => (⟨90, .right⟩, [])
  | .assignFolded _ _ => (⟨90, .right⟩, [])
  | .castUnfolded _ _ => (⟨95, .none⟩, [])
  | .castFolded _ _ _ => (⟨95, .none⟩, [])
  | .opRef nm =>
      match env nm with
      | some d => (d, [])
      | Option.none => (⟨255, .left⟩, [.unknownBinop])
  | _ => (⟨255, .left⟩, [.unknownBinop])

/-- `isa<ExplicitCastExpr>` on an expression node. -/
def isExplicitCast : Expr → Bool
  | .castUnfolded _ _ => true
  | .castFolded _ _ _ => true
  | _ => false

/-- `makeBinOp`: folds one operator with its operands.  Null LHS/RHS
short-circuits to null.  Folding a ternary attaches condition and else
branch; an assignment attaches destination and source; a cast attaches
the LHS as its subject, ignores the RHS (which is the cast node itself in
the sequence), clears the forced marker and, if it was set, wraps the
result in a force-unwrap node.  Any other operator builds a binary
application of the operator to the (LHS, RHS) pair. -/
def makeBinOp (op : Expr) (lhs rhs : Option Expr) : Option Expr :=
  match lhs, rhs with
  | some l, some r =>
    match op with
    | .ifUnfolded t => some (.ifFolded l t r)
    | .ifFolded _ t _ => some (.ifFolded l t r)
    | .assignUnfolded => some (.assignFolded l r)
    | .assignFolded _ _ => some (.assignFolded l r)
    | .castUnfolded forced ty =>
        if forced then some (.forceValue (.castFolded false ty l))
        else some (.castFolded false ty l)
    | .castFolded forced ty _ =>
        if forced then some (.forceValue (.castFolded false ty l))
        else some (.castFolded false ty l)
    | _ => some (.binary op l r)
  | _, _ => Option.none

/-- Result of a run of the folder.  `ok` carries the produced expression
(null if a failure propagated), the unconsumed remainder of the sequence
(the C++ passes the slice by reference), and the diagnostics emitted so
far.  `crash` marks undefined behaviour (null operator dereference, or
reading an empty slice); `fuelOut` marks fuel exhaustion of the model and
never corresponds to a C++ behaviour. -/
inductive FoldRes where
  | ok : Option Expr → List (Expr × Expr) → List Diag → FoldRes
  | crash : List Diag → FoldRes
  | fuelOut : FoldRes
deriving DecidableEq

/-- The folder's `getNextOperator` lambda: reads the operator at the head
of the slice, computes its attributes (possibly diagnosing), and yields
null if its precedence is below the current floor.  The sequence is
represented as a list of (operator, operand) pairs, which encodes the
even-size invariant the source asserts. -/
def getNextOperator (env : Env) (s : List (Expr × Expr)) (minPrec : Nat) :
    Option (Expr × InfixData) × List Diag :=
  match s with
  | [] => (Option.none, [])
  | (op, _) :: _ =>
    match getInfixData env op with
    | (info, d0) =>
      if info.prec < minPrec then (Option.none, d0) else (some (op, info), d0)

mutual

/-- Entry of `foldSequence` (static overload): fetch the first operator;
if its precedence is below the floor return the LHS with the sequence
unconsumed; otherwise pull out the prospective RHS, slice off the first
two elements and enter the loop. -/
def foldSeqF (env : Env) (fuel : Nat) (lhs : Option Expr)
    (s : List (Expr × Expr)) (minPrec : Nat) (ds : List Diag) : FoldRes :=
  match fuel with
  | 0 => .fuelOut
  | fuel' + 1 =>
    match s with
    | [] => .crash ds
    | (op, rhs1) :: rest =>
      match getNextOperator env ((op, rhs1) :: rest) minPrec with
      | (Option.none, d0) => .ok lhs ((op, rhs1) :: rest) (ds ++ d0)
      | (some op1, d0) => foldLoopF env fuel' (some op1) lhs (some rhs1) rest minPrec (ds ++ d0)

/-- The `while (!S.empty())` loop of `foldSequence`, with the current
operator (`Op1`, null after a below-floor refetch), accumulated LHS and
prospective RHS as loop state.  A null current operator is dereferenced
by `isa<>` inside the loop or by the trailing `makeBinOp`, modelled as
`crash` in both cases. -/
def foldLoopF (env : Env) (fuel : Nat) (cur : Option (Expr × InfixData))
    (lhs rhs : Option Expr) (s : List (Expr × Expr)) (minPrec : Nat)
    (ds : List Diag) : FoldRes :=
  match fuel with
  | 0 => .fuelOut
  | fuel' + 1 =>
    match cur with
    | Option.none => .crash ds
    | some (op1, info1) =>
      match s with
      | [] => .ok (makeBinOp op1 lhs rhs) [] ds
      | (op2, rhs2) :: rest =>
        if isExplicitCast op1 then
          -- A cast's RHS cannot extend past the type of the cast
          -- production: fold now and advance unconditionally.
          match getNextOperator env ((op2, rhs2) :: rest) minPrec with
          | (o, d0) =>
            foldLoopF env fuel' o (makeBinOp op1 lhs rhs) (some rhs2) rest minPrec (ds ++ d0)
        else
          match getInfixData env op2 with
          | (info2, d2) =>
            if info2.prec < minPrec then
              .ok (makeBinOp op1 lhs rhs) ((op2, rhs2) :: rest) (ds ++ d2)
            else if info1.prec > info2.prec
                || (info1 == info2 && info1.isLeftAssociative) then
              match getNextOperator env ((op2, rhs2) :: rest) minPrec with
              | (o, d0) =>
                foldLoopF env fuel' o (makeBinOp op1 lhs rhs) (some rhs2) rest minPrec
                  (ds ++ d2 ++ d0)
            else if info1.prec < info2.prec then
              match foldSeqF env fuel' rhs ((op2, rhs2) :: rest) (info1.prec + 1) (ds ++ d2) with
              | .ok rhs' s' ds' => foldLoopF env fuel' (some (op1, info1)) lhs rhs' s' minPrec ds'
              | r => r
            else if info1 == info2 && info1.isRightAssociative then
              match foldSeqF env fuel' rhs ((op2, rhs2) :: rest) info1.prec (ds ++ d2) with
              | .ok rhs' s' ds' =>
                match s' with
                | [] => .ok (makeBinOp op1 lhs rhs') [] ds'
                | _ :: _ => foldSeqF env fuel' (makeBinOp op1 lhs rhs') s' minPrec ds'
              | r => r
            else
              -- Mismatched or no associativity at equal precedence:
              -- diagnose, recover by binding the first two, restart.
              let d := if info1.isNonAssociative then Diag.nonAssocAdjacent
                       else if info2.isNonAssociative then Diag.nonAssocAdjacent
                       else Diag.incompatibleAssoc
              foldSeqF env fuel' (makeBinOp op1 lhs rhs) ((op2, rhs2) :: rest) minPrec
                (ds ++ d2 ++ [d])
end

/-- `TypeChecker::foldSequence`: split off the leading operand and fold
the rest at minimum precedence 0 with an empty diagnostic sink. -/
def foldSequence (env : Env) (fuel : Nat) (lhs : Expr) (s : List (Expr × Expr)) : FoldRes :=
  foldSeqF env fuel (some lhs) s 0 []

/-- Types, restricted to the structure the classifiers and
`getTypeOfRValue` inspect: class types are the ones with reference
semantics; lvalue, inout, weak-storage and unowned-storage wrappers;
optional injection; function types for subscripts. -/
inductive Ty where
  | base : Nat → Ty
  | classTy : Nat → Ty
  | optionalTy : Ty → Ty
  | inoutTy : Ty → Ty
  | lvalueTy : Ty → Ty
  | weakStorage : Ty → Ty
  | unownedStorage : Ty → Ty
  | fnTy : Ty → Ty → Ty
  | errorTy : Ty
deriving DecidableEq

/-- `Type::hasReferenceSemantics` in the fragment modelled here: class
types are the reference-semantics types. -/
def hasReferenceSemantics : Ty → Bool
  | .classTy _ => true
  | _ => false

/-- `Type::is<LValueType>`. -/
def isLValueTy : Ty → Bool
  | .lvalueTy _ => true
  | _ => false

/-- An accessor function (getter or setter), carrying its `@!mutating`
state. -/
structure AccessorDecl where
  isMutating : Bool
deriving DecidableEq

/-- A variable declaration as the classifier sees it: `isSettable(UseDC)`
(the use context is abstracted into the flag), `isStatic`, and the
optional setter accessor. -/
structure VarDecl where
  settable : Bool
  isStatic : Bool
  setter : Option AccessorDecl
deriving DecidableEq

/-- A subscript declaration: `isSettable()` plus its two accessors. -/
structure SubscriptDecl where
  settable : Bool
  getter : AccessorDecl
  setter : AccessorDecl
deriving DecidableEq

/-- `doesVarDeclMemberProduceLValue`: get-only vars produce rvalues; no
base or a static decl is settable; a reference-semantics or lvalue base
produces an lvalue; through an rvalue base only a computed property with
a non-mutating setter does. -/
def doesVarDeclMemberProduceLValue (vd : VarDecl) (baseType : Option Ty) : Bool :=
  if !vd.settable then false
  else
    match baseType with
    | Option.none => true
    | some bt =>
      if vd.isStatic then true
      else if hasReferenceSemantics bt || isLValueTy bt then true
      else
        match vd.setter with
        | some s => !s.isMutating
        | Option.none => false

/-- `doesSubscriptDeclProduceLValue`: get-only subscripts produce
rvalues; a reference-semantics or lvalue base produces an lvalue;
through an rvalue base both the getter and the setter must be
non-mutating. -/
def doesSubscriptDeclProduceLValue (sd : SubscriptDecl) (bt : Ty) : Bool :=
  if !sd.settable then false
  else if hasReferenceSemantics bt || isLValueTy bt then true
  else !sd.getter.isMutating && !sd.setter.isMutating

/-- `TypeChecker::requireOptionalIntrinsics`: false (no error) when the
context has the optional intrinsics, otherwise diagnose
`optional_intrinsics_not_found` and return true. -/
def requireOptionalIntrinsics (hasIntrinsics : Bool) : Bool × List Diag :=
  if hasIntrinsics then (false, []) else (true, [.optionalIntrinsicsNotFound])

/-- Modelled from the spec: `TypeChecker::getOptionalType` (defined
outside this file) injects a referent into the standard library's
optional type, or fails (returning null) when that type is unavailable
in the standard environment; availability is abstracted as a flag. -/
def getOptionalType (optionalAvailable : Bool) (t : Ty) : Option Ty :=
  if optionalAvailable then some (.optionalTy t) else Option.none

/-- `TypeChecker::getTypeOfRValue` on an already-validated declaration,
identified with its declared type: unwrap inout and lvalue types to
their object type; turn weak storage of `T` into `Optional<T>` (using
the referent directly if the optional type cannot be built, and checking
the optional intrinsics — whose failure is diagnosed but does not change
the result — before returning it); strip unowned storage; otherwise
return the type unchanged. -/
def getTypeOfRValue (optionalAvailable hasIntrinsics : Bool) (declType : Ty) :
    Ty × List Diag :=
  match declType with
  | .inoutTy t => (t, [])
  | .lvalueTy t => (t, [])
  | .weakStorage t =>
    match getOptionalType optionalAvailable t with
    | Option.none => (t, [])
    | some optTy => (optTy, (requireOptionalIntrinsics hasIntrinsics).2)
  | .unownedStorage t => (t, [])
  | t => (t, [])

/-- A declaration as the capture analyzer sees it: identity, whether it
is a `VarDecl`, and its declaring context, represented as a path from
the root context (a context's parents are the strict prefixes of its
path). -/
structure CapDecl where
  id : Nat
  isVar : Bool
  ctx : List Nat
deriving DecidableEq

/-- Boolean path-prefix test on contexts. -/
def ctxIsPrefixOf : List Nat → List Nat → Bool
  | [], _ => true
  | _ :: _, [] => false
  | a :: as', b :: bs => a == b && ctxIsPrefixOf as' bs

/-- `DeclContext::isChildContextOf`: the parent is a strict ancestor of
the child, i.e. a proper path prefix. -/
def isChildContextOf (child parent : List Nat) : Bool :=
  ctxIsPrefixOf parent child && parent != child

/-- `llvm::SetVector::insert`: append if not already present. -/
def insertUnique (acc : List CapDecl) (d : CapDecl) : List CapDecl :=
  if d ∈ acc then acc else acc ++ [d]

/-- The closure body as the walker traverses it: declaration references,
nested closures (carrying their already-computed capture set; the walker
does not descend into their bodies), and any other node with children. -/
inductive CapTree where
  | declRef : CapDecl → CapTree
  | closure : List CapDecl → CapTree
  | node : List CapTree → CapTree

mutual

/-- `FindCapturedVars` walk over one node.  A declaration reference is
captured only if the current closure is a child context of the
declaration's context, and non-`VarDecl`s from non-local contexts are
never captured.  For a nested closure, each member of its computed
capture set is merged in unless its context is the current closure
itself. -/
def walkTree (localCtx : List Nat → Bool) (cur : List Nat)
    (acc : List CapDecl) : CapTree → List CapDecl
  | .declRef d =>
      if !(isChildContextOf cur d.ctx) then acc
      else if !d.isVar && !(localCtx d.ctx) then acc
      else insertUnique acc d
  | .closure caps =>
      caps.foldl (fun a d => if d.ctx != cur then insertUnique a d else a) acc
  | .node ts => walkTreeList localCtx cur acc ts

/-- Pre-order walk over a node's children. -/
def walkTreeList (localCtx : List Nat → Bool) (cur : List Nat)
    (acc : List CapDecl) : List CapTree → List CapDecl
  | [] => acc
  | t :: ts => walkTreeList localCtx cur (walkTree localCtx cur acc t) ts

end

/-- `TypeChecker::computeCaptures`: walk the closure body with an empty
set and record the result. -/
def computeCaptures (localCtx : List Nat → Bool) (cur : List Nat)
    (body : CapTree) : List CapDecl :=
  walkTree localCtx cur [] body

mutual

/-- The scheduling precondition on the caller: every nested closure in
the body already has its capture set computed correctly, so each of its
members comes from a scope enclosing that nested closure — i.e. its
context path is a (possibly equal) prefix of the current closure's path
— and respects the variable-or-local restriction. -/
def capsWF (localCtx : List Nat → Bool) (cur : List Nat) : CapTree → Bool
  | .declRef _ => true
  | .closure caps =>
      caps.all (fun d => ctxIsPrefixOf d.ctx cur && (d.isVar || localCtx d.ctx))
  | .node ts => capsWFList localCtx cur ts

/-- `capsWF` over a node's children. -/
def capsWFList (localCtx : List Nat → Bool) (cur : List Nat) : List CapTree → Bool
  | [] => true
  | t :: ts => capsWF localCtx cur t && capsWFList localCtx cur ts

end

/-- A concrete operator table for counterexamples: operator 0 has
precedence 85, operator 1 has precedence 80, both left-associative. -/
def envC : Env := fun nm =>
  if nm = 0 then some ⟨85, .left⟩
  else if nm = 1 then some ⟨80, .left⟩
  else Option.none

/-- A concrete operator table with an associativity conflict: operators
3 and 4 share precedence 60, operator 3 non-associative, operator 4
right-associative. -/
def envN : Env := fun nm =>
  if nm = 3 then some ⟨60, .none⟩
  else if nm = 4 then some ⟨60, .right⟩
  else Option.none

/-- Claim C2: computing infix attributes yields fixed values for the
three pseudo-operators for every lookup oracle (hence without consulting
it) — ternary 100/right, cast 95/none, assignment 90/right — while an
ordinary declaration reference in operator position is resolved through
the oracle. -/
theorem getInfixData_pseudo_fixed (env : Env) (t : Expr) (forced : Bool)
    (ty nm : Nat) (d : InfixData) (h : env nm = some d) :
    getInfixData env (.ifUnfolded t) = (⟨100, .right⟩, [])
      ∧ getInfixData env (.castUnfolded forced ty) = (⟨95, .none⟩, [])
      ∧ getInfixData env (.assignUnfolded) = (⟨90, .right⟩, [])
      ∧ getInfixData env (.opRef nm) = (d, []) := by
  refine ⟨rfl, rfl, rfl, ?_⟩
  simp [getInfixData, h]

/-- Witness for `getInfixData_pseudo_fixed` at a concrete oracle. -/
theorem getInfixData_pseudo_fixed_witness :
    getInfixData envC (.ifUnfolded (.operand 0)) = (⟨100, .right⟩, [])
      ∧ getInfixData envC (.castUnfolded true 7) = (⟨95, .none⟩, [])
      ∧ getInfixData envC (.assignUnfolded) = (⟨90, .right⟩, [])
      ∧ getInfixData envC (.opRef 1) = (⟨80, .left⟩, []) :=
  getInfixData_pseudo_fixed envC (.operand 0) true 7 1 ⟨80, .left⟩ rfl

/-- Claim C1, counterexample: a direct run of the folder with
minimum-precedence floor 86 on the sequence `b as T ⊛ c` (where `⊛` is
operator 1, precedence 80 < 86).  After the cast pseudo-operator is
folded, the next operator has precedence below the floor — per the
claim, folding should stop and return the folded cast with the `⊛` pair
unconsumed — but the code consumes the pair unconditionally and then
dereferences the null current operator (`crash`), rather than producing
the claimed `ok` result. -/
theorem foldSeqF_cast_below_floor_counterexample :
    foldSeqF envC 10 (some (.operand 1))
        [(.castUnfolded false 7, .castUnfolded false 7), (.opRef 1, .operand 2)] 86 []
        = .crash []
      ∧ FoldRes.crash []
          ≠ .ok (some (.castFolded false 7 (.operand 1))) [(.opRef 1, .operand 2)] [] := by
  exact ⟨by decide, by decide⟩

/-- Claim C1 (amended): the below-floor stop is honoured at the two
places the folder checks it — the operator fetch on entry (returning the
accumulated LHS with the sequence unconsumed) and the next-operator
check in the loop body (folding the pending operator and returning with
the sequence from the below-floor operator on unconsumed).  On the path
immediately after a cast pseudo-operator is folded, the below-floor
check is not honoured (see the counterexample). -/
theorem foldSequence_stops_below_floor :
    (∀ (env : Env) (fuel : Nat) (lhs : Option Expr) (op rhs : Expr)
        (rest : List (Expr × Expr)) (minPrec : Nat) (ds : List Diag),
      (getInfixData env op).1.prec < minPrec →
      foldSeqF env (fuel + 1) lhs ((op, rhs) :: rest) minPrec ds
        = .ok lhs ((op, rhs) :: rest) (ds ++ (getInfixData env op).2))
  ∧ (∀ (env : Env) (fuel : Nat) (op1 : Expr) (info1 : InfixData)
        (lhs rhs : Option Expr) (op2 rhs2 : Expr) (rest : List (Expr × Expr))
        (minPrec : Nat) (ds : List Diag),
      isExplicitCast op1 = false →
      (getInfixData env op2).1.prec < minPrec →
      foldLoopF env (fuel + 1) (some (op1, info1)) lhs rhs ((op2, rhs2) :: rest) minPrec ds
        = .ok (makeBinOp op1 lhs rhs) ((op2, rhs2) :: rest) (ds ++ (getInfixData env op2).2)) := by
  constructor
  · intro env fuel lhs op rhs rest minPrec ds h
    rcases hg : getInfixData env op with ⟨info, d0⟩
    rw [hg] at h
    simp only [foldSeqF, getNextOperator, hg]
    simp [h]
  · intro env fuel op1 info1 lhs rhs op2 rhs2 rest minPrec ds hcast h
    rcases hg : getInfixData env op2 with ⟨info2, d2⟩
    rw [hg] at h
    simp only [foldLoopF, hcast, hg]
    simp [h]

/-- Witness for `foldSequence_stops_below_floor`: entry stop and loop
stop at a concrete below-floor operator. -/
theorem foldSequence_stops_below_floor_witness :
    foldSeqF envC 5 (some (.operand 0)) [(.opRef 1, .operand 1)] 81 []
        = .ok (some (.operand 0)) [(.opRef 1, .operand 1)] []
      ∧ foldLoopF envC 5 (some (.opRef 0, ⟨85, .left⟩)) (some (.operand 0))
          (some (.operand 1)) [(.opRef 1, .operand 2)] 81 []
        = .ok (some (.binary (.opRef 0) (.operand 0) (.operand 1)))
            [(.opRef 1, .operand 2)] [] :=
  ⟨foldSequence_stops_below_floor.1 envC 4 (some (.operand 0)) (.opRef 1) (.operand 1)
      [] 81 [] (by decide),
   foldSequence_stops_below_floor.2 envC 4 (.opRef 0) ⟨85, .left⟩ (some (.operand 0))
      (some (.operand 1)) (.opRef 1) (.operand 2) [] 81 [] (by decide) (by decide)⟩

/-- Claim C10: on the well-formed sequence `a ⊕ b as T ⊛ c ⊛ d`
(operator 0 `⊕` at precedence 85, operator 1 `⊛` at precedence 80, cast
at 95), the recursive fold at floor 86 folds the cast and then re-fetches
an operator whose precedence 80 is below the floor — contradicting the
claim — after which the loop proceeds with a null current operator: the
debug build's loop-head assertion `Op1.infixData.getPrecedence() >=
MinPrecedence` fails and the release build dereferences the null
operator.  Modelled as the `crash` outcome. -/
theorem foldSequence_null_operator_crash :
    foldSequence envC 30 (.operand 0)
      [(.opRef 0, .operand 1), (.castUnfolded false 7, .castUnfolded false 7),
       (.opRef 1, .operand 2), (.opRef 1, .operand 3)] = .crash [] := by
  decide

/-- Claim C3: folding `x as(!) T ⊛ b`, with `⊛` any looked-up operator of
precedence below the cast's 95, binds the cast to exactly its subject
`x` and the pre-parsed type operand: the result applies `⊛` to the
folded cast and `b`, the cast's right side never extends over `⊛ b`, the
folded cast's forced marker is cleared, and a forced cast is additionally
wrapped in a force-unwrap node. -/
theorem foldSequence_cast_binds_type_only (env : Env) (fuel : Nat) (forced : Bool)
    (ty x b nm : Nat) (d : InfixData) (henv : env nm = some d) (_hlow : d.prec < 95) :
    foldSequence env (fuel + 3) (.operand x)
      [(.castUnfolded forced ty, .castUnfolded forced ty), (.opRef nm, .operand b)]
      = .ok (some (.binary (.opRef nm)
              (if forced then .forceValue (.castFolded false ty (.operand x))
               else .castFolded false ty (.operand x))
              (.operand b))) [] [] := by
  cases forced <;>
    simp [foldSequence, foldSeqF, foldLoopF, getNextOperator, getInfixData,
      makeBinOp, isExplicitCast, henv, Nat.not_lt_zero]

/-- Witness for `foldSequence_cast_binds_type_only`: `x as! T ⊛ b` folds
to `(x as T)! ⊛ b` under the concrete table. -/
theorem foldSequence_cast_binds_type_only_witness :
    foldSequence envC 10 (.operand 0)
      [(.castUnfolded true 7, .castUnfolded true 7), (.opRef 1, .operand 2)]
      = .ok (some (.binary (.opRef 1)
              (.forceValue (.castFolded false 7 (.operand 0)))
              (.operand 2))) [] [] := by
  have h := foldSequence_cast_binds_type_only envC 7 true 7 0 2 1 ⟨80, .left⟩
    (by decide) (by decide)
  simpa using h

/-- Claim C7, counterexample: a settable static variable with no setter,
referenced through a pass-by-value rvalue receiver, is classified
mutable by the code (the static check returns true before the receiver
is examined), contradicting the claim that through a value-type rvalue
receiver the reference is mutable only when the variable has a
non-mutating setter. -/
theorem doesVarDeclMemberProduceLValue_static_counterexample :
    doesVarDeclMemberProduceLValue ⟨true, true, Option.none⟩ (some (.base 0)) = true
      ∧ (⟨true, true, Option.none⟩ : VarDecl).setter = Option.none
      ∧ hasReferenceSemantics (.base 0) = false
      ∧ isLValueTy (.base 0) = false := by
  decide

/-- Claim C7 (amended, adding the non-static qualification the code
requires): a settable variable through a reference-semantics or lvalue
receiver is always mutable; a settable non-static variable through a
value-type rvalue receiver is mutable exactly when it has a setter and
that setter is non-mutating; a settable subscript through a value-type
rvalue receiver is mutable exactly when both its getter and its setter
are non-mutating. -/
theorem reference_mutability_classification :
    (∀ (vd : VarDecl) (bt : Ty), vd.settable = true →
        (hasReferenceSemantics bt || isLValueTy bt) = true →
        doesVarDeclMemberProduceLValue vd (some bt) = true)
  ∧ (∀ (vd : VarDecl) (bt : Ty), vd.settable = true → vd.isStatic = false →
        hasReferenceSemantics bt = false → isLValueTy bt = false →
        doesVarDeclMemberProduceLValue vd (some bt)
          = vd.setter.elim false (fun s => !s.isMutating))
  ∧ (∀ (sd : SubscriptDecl) (bt : Ty), sd.settable = true →
        hasReferenceSemantics bt = false → isLValueTy bt = false →
        doesSubscriptDeclProduceLValue sd bt
          = (!sd.getter.isMutating && !sd.setter.isMutating)) := by
  refine ⟨?_, ?_, ?_⟩
  · intro vd bt hs hb
    cases hst : vd.isStatic <;>
      simp [doesVarDeclMemberProduceLValue, hs, hb, hst]
  · intro vd bt hs hst hr hl
    cases hset : vd.setter <;>
      simp [doesVarDeclMemberProduceLValue, hs, hst, hr, hl, hset]
  · intro sd bt hs hr hl
    simp [doesSubscriptDeclProduceLValue, hs, hr, hl]

/-- Witness for `reference_mutability_classification`: a settable
variable with a mutating setter is immutable through a value-type rvalue
receiver and mutable through a class receiver; a subscript with a
mutating getter is immutable through a value-type rvalue receiver. -/
theorem reference_mutability_classification_witness :
    doesVarDeclMemberProduceLValue ⟨true, false, some ⟨true⟩⟩ (some (.classTy 0)) = true
      ∧ doesVarDeclMemberProduceLValue ⟨true, false, some ⟨true⟩⟩ (some (.base 0))
          = (some (⟨true⟩ : AccessorDecl)).elim false (fun s => !s.isMutating)
      ∧ doesSubscriptDeclProduceLValue ⟨true, ⟨true⟩, ⟨false⟩⟩ (.base 0)
          = (!(⟨true⟩ : AccessorDecl).isMutating && !(⟨false⟩ : AccessorDecl).isMutating) :=
  ⟨reference_mutability_classification.1 ⟨true, false, some ⟨true⟩⟩ (.classTy 0) rfl rfl,
   reference_mutability_classification.2.1 ⟨true, false, some ⟨true⟩⟩ (.base 0) rfl rfl rfl rfl,
   reference_mutability_classification.2.2 ⟨true, ⟨true⟩, ⟨false⟩⟩ (.base 0) rfl rfl rfl⟩

/-- Claim C9, counterexample: with the optional type available but the
optional intrinsics missing, resolving a declaration of type `@weak T`
diagnoses the missing-intrinsics error yet still returns `Optional<T>`,
not the referent `T` the claim says is substituted in that situation. -/
theorem getTypeOfRValue_weak_counterexample :
    getTypeOfRValue true false (.weakStorage (.base 0))
        = (.optionalTy (.base 0), [.optionalIntrinsicsNotFound])
      ∧ Ty.optionalTy (.base 0) ≠ .base 0 := by
  exact ⟨rfl, by decide⟩

/-- Claim C9 (amended): resolving a `@weak T` declaration yields
`Optional<T>` whenever the optional type can be formed — diagnosing the
missing-intrinsics error, without changing the result, when the optional
intrinsics are unavailable — and substitutes the referent `T` directly
(with no diagnostic from this function) only when the optional type
itself cannot be formed. -/
theorem getTypeOfRValue_weak_storage (t : Ty) (hasIntrinsics : Bool) :
    getTypeOfRValue true hasIntrinsics (.weakStorage t)
        = (.optionalTy t,
           if hasIntrinsics then [] else [.optionalIntrinsicsNotFound])
      ∧ getTypeOfRValue false hasIntrinsics (.weakStorage t) = (t, []) := by
  cases hasIntrinsics <;>
    exact ⟨rfl, rfl⟩

/-- Claim C6: (1) whenever the loop meets two adjacent operators of
equal precedence whose associativities mismatch or are both none — i.e.
none of the earlier branches fire — it appends exactly one diagnostic
for that adjacency, of the non-associative-adjacency kind when either
operator is non-associative and of the incompatible-associativity kind
otherwise, and recovers by folding the pending pair and restarting the
fold on the remaining sequence at the same floor; (2) on a whole
sequence `x op1 y op2 z` with equal-precedence conflicting operators the
fold terminates with a non-null recovered tree (the first pair bound
arbitrarily) and that single diagnostic. -/
theorem fold_assoc_conflict_diagnosed :
    (∀ (env : Env) (fuel : Nat) (op1 : Expr) (info1 info2 : InfixData)
        (lhs rhs : Option Expr) (op2 rhs2 : Expr) (rest : List (Expr × Expr))
        (minPrec : Nat) (ds d2 : List Diag),
      isExplicitCast op1 = false →
      getInfixData env op2 = (info2, d2) →
      ¬ info2.prec < minPrec →
      info1.prec = info2.prec →
      (info1 == info2 && info1.isLeftAssociative) = false →
      (info1 == info2 && info1.isRightAssociative) = false →
      foldLoopF env (fuel + 1) (some (op1, info1)) lhs rhs ((op2, rhs2) :: rest) minPrec ds
        = foldSeqF env fuel (makeBinOp op1 lhs rhs) ((op2, rhs2) :: rest) minPrec
            (ds ++ d2 ++
              [if info1.isNonAssociative then Diag.nonAssocAdjacent
               else if info2.isNonAssociative then Diag.nonAssocAdjacent
               else Diag.incompatibleAssoc]))
  ∧ (∀ (env : Env) (fuel : Nat) (n1 n2 p x y z : Nat) (a1 a2 : Assoc),
      env n1 = some ⟨p, a1⟩ → env n2 = some ⟨p, a2⟩ →
      (a1 ≠ a2 ∨ a1 = Assoc.none) →
      foldSequence env (fuel + 4) (.operand x)
          [(.opRef n1, .operand y), (.opRef n2, .operand z)]
        = .ok (some (.binary (.opRef n2)
                (.binary (.opRef n1) (.operand x) (.operand y)) (.operand z))) []
            [if a1 = Assoc.none ∨ a2 = Assoc.none then Diag.nonAssocAdjacent
             else Diag.incompatibleAssoc]) := by
  constructor
  · intro env fuel op1 info1 info2 lhs rhs op2 rhs2 rest minPrec ds d2
      hcast hg hmin hp hleft hright
    simp only [foldLoopF, hcast, hg]
    rw [if_neg hmin]
    have hgt : (decide (info1.prec > info2.prec)
        || (info1 == info2 && info1.isLeftAssociative)) = false := by
      simp [hleft, hp]
    rw [if_neg (by simp [hgt] : ¬ ((decide (info1.prec > info2.prec)
        || (info1 == info2 && info1.isLeftAssociative)) = true))]
    rw [if_neg (by omega : ¬ info1.prec < info2.prec)]
    rw [if_neg (by simp [hright] : ¬ ((info1 == info2 && info1.isRightAssociative) = true))]
    simp
  · intro env fuel n1 n2 p x y z a1 a2 h1 h2 hconf
    cases a1 <;> cases a2 <;>
      simp_all [foldSequence, foldSeqF, foldLoopF, getNextOperator, getInfixData,
        makeBinOp, isExplicitCast, InfixData.isLeftAssociative,
        InfixData.isRightAssociative, InfixData.isNonAssociative]

/-- Witness for `fold_assoc_conflict_diagnosed`: two non-associative
operators of equal precedence, at the loop level and for a whole
sequence. -/
theorem fold_assoc_conflict_diagnosed_witness :
    foldLoopF envN 10 (some (.opRef 3, ⟨60, .none⟩)) (some (.operand 0))
        (some (.operand 1)) [(.opRef 3, .operand 2)] 0 []
        = foldSeqF envN 9 (makeBinOp (.opRef 3) (some (.operand 0)) (some (.operand 1)))
            [(.opRef 3, .operand 2)] 0 [Diag.nonAssocAdjacent]
      ∧ foldSequence envN 10 (.operand 0) [(.opRef 3, .operand 1), (.opRef 3, .operand 2)]
        = .ok (some (.binary (.opRef 3)
                (.binary (.opRef 3) (.operand 0) (.operand 1)) (.operand 2))) []
            [Diag.nonAssocAdjacent] := by
  refine ⟨?_, ?_⟩
  · have h := fold_assoc_conflict_diagnosed.1 envN 9 (.opRef 3) ⟨60, .none⟩ ⟨60, .none⟩
      (some (.operand 0)) (some (.operand 1)) (.opRef 3) (.operand 2) [] 0 [] []
      (by decide) (by decide) (by decide) rfl (by decide) (by decide)
    simpa using h
  · have h := fold_assoc_conflict_diagnosed.2 envN 6 3 3 60 0 1 2 Assoc.none Assoc.none
      (by decide) (by decide) (Or.inr rfl)
    simpa using h

/-- One unfolding of the folder's entry when the head operator is at or
above the floor. -/
theorem foldSeqF_step (env : Env) (f : Nat) (lhs : Option Expr) (op rhs1 : Expr)
    (rest : List (Expr × Expr)) (minPrec : Nat) (ds : List Diag)
    (info : InfixData) (d0 : List Diag)
    (hg : getInfixData env op = (info, d0)) (hmin : ¬ info.prec < minPrec) :
    foldSeqF env (f + 1) lhs ((op, rhs1) :: rest) minPrec ds
      = foldLoopF env f (some (op, info)) lhs (some rhs1) rest minPrec (ds ++ d0) := by
  simp only [foldSeqF, getNextOperator, hg]
  rw [if_neg hmin]

/-- The loop on an exhausted sequence folds the pending operator. -/
theorem foldLoopF_nil (env : Env) (f : Nat) (op1 : Expr) (info1 : InfixData)
    (lhs rhs : Option Expr) (minPrec : Nat) (ds : List Diag) :
    foldLoopF env (f + 1) (some (op1, info1)) lhs rhs [] minPrec ds
      = .ok (makeBinOp op1 lhs rhs) [] ds := rfl

/-- One unfolding of the loop's equal-precedence right-associative
branch, given that the recursive fold of the right side consumes the
whole remaining sequence. -/
theorem foldLoopF_right_step (env : Env) (f : Nat) (op1 op2 rhs2 : Expr)
    (info1 info2 : InfixData) (lhs rhs rhs' : Option Expr)
    (rest : List (Expr × Expr)) (minPrec : Nat) (ds d2 ds' : List Diag)
    (hcast : isExplicitCast op1 = false)
    (hg : getInfixData env op2 = (info2, d2))
    (hmin : ¬ info2.prec < minPrec)
    (hne : (decide (info1.prec > info2.prec) || (info1 == info2 && info1.isLeftAssociative)) = false)
    (hlt : ¬ info1.prec < info2.prec)
    (hra : (info1 == info2 && info1.isRightAssociative) = true)
    (hinner : foldSeqF env f rhs ((op2, rhs2) :: rest) info1.prec (ds ++ d2) = .ok rhs' [] ds') :
    foldLoopF env (f + 1) (some (op1, info1)) lhs rhs ((op2, rhs2) :: rest) minPrec ds
      = .ok (makeBinOp op1 lhs rhs') [] ds' := by
  simp only [foldLoopF, hcast, hg]
  rw [if_neg hmin]
  rw [if_neg (by simp [hne] :
    ¬ ((decide (info1.prec > info2.prec) || (info1 == info2 && info1.isLeftAssociative)) = true))]
  rw [if_neg hlt, if_pos hra, hinner]
  simp

/-- One unfolding of the loop's fold-immediately branch (first operator
strictly tighter, or equal attributes and both left-associative). -/
theorem foldLoopF_foldnow_step (env : Env) (f : Nat) (op1 op2 rhs2 : Expr)
    (info1 info2 : InfixData) (lhs rhs : Option Expr)
    (rest : List (Expr × Expr)) (minPrec : Nat) (ds d2 : List Diag)
    (hcast : isExplicitCast op1 = false)
    (hg : getInfixData env op2 = (info2, d2))
    (hmin : ¬ info2.prec < minPrec)
    (hcond : (decide (info1.prec > info2.prec) || (info1 == info2 && info1.isLeftAssociative)) = true) :
    foldLoopF env (f + 1) (some (op1, info1)) lhs rhs ((op2, rhs2) :: rest) minPrec ds
      = foldLoopF env f (some (op2, info2)) (makeBinOp op1 lhs rhs) (some rhs2) rest minPrec
          (ds ++ d2 ++ d2) := by
  simp only [foldLoopF, hcast, hg, getNextOperator]
  rw [if_neg hmin, if_pos hcond, if_neg hmin]
  simp

/-- A sequence tail of `k` repetitions of one operator with consecutively
numbered operands starting at `i`. -/
def rpairs (nm i : Nat) : Nat → List (Expr × Expr)
  | 0 => []
  | k + 1 => (.opRef nm, .operand i) :: rpairs nm (i + 1) k

/-- The right-leaning chain of depth `k` over operands `i .. i + k`:
each operator node's right child is the chain over everything to its
right. -/
def rchain (nm i : Nat) : Nat → Expr
  | 0 => .operand i
  | k + 1 => .binary (.opRef nm) (.operand i) (rchain nm (i + 1) k)

/-- Folding a chain of one right-associative operator from any floor at
or below its precedence produces the right-leaning chain. -/
theorem foldSeq_rightassoc_aux (env : Env) (nm p : Nat)
    (henv : env nm = some ⟨p, .right⟩) :
    ∀ (k i minPrec m : Nat) (ds : List Diag), minPrec ≤ p →
      foldSeqF env (2 * k + m + 4) (some (.operand i)) (rpairs nm (i + 1) (k + 1)) minPrec ds
        = .ok (some (rchain nm i (k + 1))) [] ds := by
  intro k
  have hg : getInfixData env (.opRef nm) = (⟨p, .right⟩, []) := by
    simp [getInfixData, henv]
  induction k with
  | zero =>
    intro i minPrec m ds hmin
    have h4 : 2 * 0 + m + 4 = (m + 3) + 1 := by omega
    rw [h4, show rpairs nm (i + 1) 1 = [(.opRef nm, .operand (i + 1))] from rfl]
    rw [foldSeqF_step env (m + 3) _ _ _ _ _ _ _ _ hg (by show ¬ p < minPrec; omega)]
    have h3 : m + 3 = (m + 2) + 1 := by omega
    rw [h3, foldLoopF_nil]
    simp [makeBinOp, rchain]
  | succ k ih =>
    intro i minPrec m ds hmin
    have h4 : 2 * (k + 1) + m + 4 = (2 * k + m + 5) + 1 := by omega
    have hcons1 : rpairs nm (i + 1) (k + 1 + 1)
        = (.opRef nm, .operand (i + 1)) :: rpairs nm (i + 2) (k + 1) := rfl
    rw [h4, hcons1,
      foldSeqF_step env (2 * k + m + 5) _ _ _ _ _ _ _ _ hg (by show ¬ p < minPrec; omega)]
    have h5 : 2 * k + m + 5 = (2 * k + m + 4) + 1 := by omega
    have hcons2 : rpairs nm (i + 2) (k + 1)
        = (.opRef nm, .operand (i + 2)) :: rpairs nm (i + 3) k := rfl
    rw [h5, hcons2]
    have hinner := ih (i + 1) p m (ds ++ [] ++ []) (le_refl p)
    rw [show rpairs nm (i + 1 + 1) (k + 1)
        = (.opRef nm, .operand (i + 2)) :: rpairs nm (i + 3) k from rfl] at hinner
    rw [foldLoopF_right_step env (2 * k + m + 4) (.opRef nm) (.opRef nm) (.operand (i + 2))
      ⟨p, .right⟩ ⟨p, .right⟩ (some (.operand i)) (some (.operand (i + 1)))
      (some (rchain nm (i + 1) (k + 1))) (rpairs nm (i + 3) k) minPrec (ds ++ []) []
      (ds ++ [] ++ []) rfl hg (by show ¬ p < minPrec; omega)
      (by simp [InfixData.isLeftAssociative]) (by show ¬ p < p; omega)
      (by simp [InfixData.isRightAssociative]) hinner]
    simp [makeBinOp, rchain]

/-- Claim C4: an operand/operator sequence interleaving `n + 1`
occurrences (the claim's `n ≥ 1`) of one right-associative operator of
precedence `p` with operands `0 .. n + 1` folds, for any sufficient
fuel, to the right-leaning chain of depth `n + 1`: the first operator is
the root and every operator node's right child is the fold of everything
to its right. -/
theorem foldSequence_rightassoc_chain (env : Env) (nm p n m : Nat)
    (henv : env nm = some ⟨p, .right⟩) :
    foldSequence env (2 * n + m + 4) (.operand 0) (rpairs nm 1 (n + 1))
      = .ok (some (rchain nm 0 (n + 1))) [] [] := by
  have h := foldSeq_rightassoc_aux env nm p henv n 0 0 m [] (Nat.zero_le p)
  simpa [foldSequence] using h

/-- Witness for `foldSequence_rightassoc_chain`: two occurrences of a
right-associative operator at precedence 70 fold to a chain nested to
the right. -/
theorem foldSequence_rightassoc_chain_witness :
    foldSequence (fun nm => if nm = 2 then some ⟨70, .right⟩ else Option.none) 6
        (.operand 0) [(.opRef 2, .operand 1), (.opRef 2, .operand 2)]
      = .ok (some (.binary (.opRef 2) (.operand 0)
              (.binary (.opRef 2) (.operand 1) (.operand 2)))) [] [] := by
  have h := foldSequence_rightassoc_chain
    (fun nm => if nm = 2 then some ⟨70, .right⟩ else Option.none) 2 70 1 0 rfl
  simpa [rpairs, rchain] using h

/-- A tail of (operator name, operand number) steps as sequence pairs. -/
def dpairs : List (Nat × Nat) → List (Expr × Expr) :=
  List.map (fun x => (Expr.opRef x.1, Expr.operand x.2))

/-- The left-leaning tree over an accumulated left subtree: each step's
operator becomes the root of everything folded so far. -/
def lchain : Expr → List (Nat × Nat) → Expr
  | acc, [] => acc
  | acc, (nm, b) :: rest => lchain (.binary (.opRef nm) acc (.operand b)) rest

/-- Every operator in the tail resolves through the oracle and their
precedences are strictly decreasing below the given bound. -/
def descFromB (env : Env) : Nat → List (Nat × Nat) → Bool
  | _, [] => true
  | p, (nm, _) :: rest =>
    match env nm with
    | some d => decide (d.prec < p) && descFromB env d.prec rest
    | Option.none => false

/-- Loop invariant for strictly decreasing precedences at floor 0: each
step folds the pending operator immediately and continues, producing the
left-leaning tree. -/
theorem foldLoopF_desc_aux (env : Env) :
    ∀ (l : List (Nat × Nat)) (nm1 : Nat) (d1 : InfixData) (lhs rhs : Expr)
      (m : Nat) (ds : List Diag),
      env nm1 = some d1 →
      descFromB env d1.prec l = true →
      foldLoopF env (l.length + m + 1) (some (.opRef nm1, d1)) (some lhs) (some rhs)
          (dpairs l) 0 ds
        = .ok (some (lchain (.binary (.opRef nm1) lhs rhs) l)) [] ds := by
  intro l
  induction l with
  | nil =>
    intro nm1 d1 lhs rhs m ds h1 _
    have h0 : ([] : List (Nat × Nat)).length + m + 1 = m + 1 := by simp
    rw [h0, show dpairs [] = [] from rfl, foldLoopF_nil]
    simp [makeBinOp, lchain]
  | cons x rest ih =>
    obtain ⟨nm2, b2⟩ := x
    intro nm1 d1 lhs rhs m ds h1 hdesc
    rcases h2 : env nm2 with _ | d2
    · rw [descFromB, h2] at hdesc
      exact absurd hdesc (by simp)
    · rw [descFromB, h2, Bool.and_eq_true, decide_eq_true_eq] at hdesc
      obtain ⟨hlt, hdesc2⟩ := hdesc
      have hlen : ((nm2, b2) :: rest).length + m + 1 = (rest.length + m + 1) + 1 := by
        simp [List.length_cons]; omega
      have hcons : dpairs ((nm2, b2) :: rest)
          = (.opRef nm2, .operand b2) :: dpairs rest := rfl
      rw [hlen, hcons]
      rw [foldLoopF_foldnow_step env (rest.length + m + 1) (.opRef nm1) (.opRef nm2)
        (.operand b2) d1 d2 (some lhs) (some rhs) (dpairs rest) 0 ds []
        rfl (by simp [getInfixData, h2]) (by omega)
        (by simp [decide_eq_true hlt])]
      have h := ih nm2 d2 (.binary (.opRef nm1) lhs rhs) (.operand b2) m
        (ds ++ [] ++ []) h2 hdesc2
      rw [show makeBinOp (.opRef nm1) (some lhs) (some rhs)
          = some (.binary (.opRef nm1) lhs rhs) from rfl]
      rw [h]
      simp [lchain]

/-- Claim C5: a sequence of at least three elements whose operators all
resolve through the oracle with strictly decreasing precedences from
left to right folds to the left-leaning tree — formalized as the left
fold in which each successive operator becomes the root of the tree
built from everything before it plus its own right operand. -/
theorem foldSequence_desc_left_chain (env : Env) (nm1 b1 a0 m : Nat) (d1 : InfixData)
    (l : List (Nat × Nat))
    (h1 : env nm1 = some d1)
    (hdesc : descFromB env d1.prec l = true) :
    foldSequence env (l.length + m + 3) (.operand a0) (dpairs ((nm1, b1) :: l))
      = .ok (some (lchain (.operand a0) ((nm1, b1) :: l))) [] [] := by
  have hlen : l.length + m + 3 = (l.length + (m + 1) + 1) + 1 := by omega
  have hcons : dpairs ((nm1, b1) :: l) = (.opRef nm1, .operand b1) :: dpairs l := rfl
  rw [foldSequence, hlen, hcons]
  rw [foldSeqF_step env (l.length + (m + 1) + 1) (some (.operand a0)) (.opRef nm1)
    (.operand b1) (dpairs l) 0 [] d1 []
    (by simp [getInfixData, h1]) (by omega)]
  have h := foldLoopF_desc_aux env l nm1 d1 (.operand a0) (.operand b1) (m + 1)
    ([] ++ []) h1 hdesc
  rw [h]
  simp [lchain]

/-- Witness for `foldSequence_desc_left_chain`: `a ⊕ b ⊛ c` with
precedences 85 then 80 folds left-leaning, the looser second operator at
the root. -/
theorem foldSequence_desc_left_chain_witness :
    foldSequence envC 4 (.operand 0) [(.opRef 0, .operand 1), (.opRef 1, .operand 2)]
      = .ok (some (.binary (.opRef 1)
              (.binary (.opRef 0) (.operand 0) (.operand 1)) (.operand 2))) [] [] := by
  have h := foldSequence_desc_left_chain envC 0 1 0 0 ⟨85, .left⟩ [(1, 2)] rfl (by decide)
  simpa [dpairs, lchain] using h

/-- Membership after a set-vector insert: already present or the
inserted element. -/
theorem mem_insertUnique {acc : List CapDecl} {d0 d : CapDecl}
    (h : d ∈ insertUnique acc d0) : d ∈ acc ∨ d = d0 := by
  by_cases hmem : d0 ∈ acc
  · rw [insertUnique, if_pos hmem] at h
    exact Or.inl h
  · rw [insertUnique, if_neg hmem] at h
    rcases List.mem_append.mp h with h1 | h1
    · exact Or.inl h1
    · exact Or.inr (List.mem_singleton.mp h1)

/-- The capture-set invariant: the declaration's context strictly
encloses the current closure, and the declaration is a variable or from
a local context. -/
def capOK (cl : List Nat → Bool) (cur : List Nat) (d : CapDecl) : Prop :=
  isChildContextOf cur d.ctx = true ∧ (d.isVar = true ∨ cl d.ctx = true)

/-- Merging a correctly computed nested capture set preserves the
invariant: members contexted at the current closure are filtered out,
and the rest strictly enclose it. -/
theorem closure_merge_inv (cl : List Nat → Bool) (cur : List Nat) :
    ∀ (caps acc : List CapDecl),
      (∀ d ∈ acc, capOK cl cur d) →
      (∀ d ∈ caps, ctxIsPrefixOf d.ctx cur = true ∧ (d.isVar = true ∨ cl d.ctx = true)) →
      ∀ d ∈ caps.foldl (fun a d => if d.ctx != cur then insertUnique a d else a) acc,
        capOK cl cur d := by
  intro caps
  induction caps with
  | nil =>
    intro acc hacc _ d hd
    rw [List.foldl_nil] at hd
    exact hacc d hd
  | cons c rest ih =>
    intro acc hacc hcaps d hd
    rw [List.foldl_cons] at hd
    refine ih _ ?_ (fun x hx => hcaps x (List.mem_cons_of_mem c hx)) d hd
    intro d' hd'
    by_cases hne : (c.ctx != cur) = true
    · rw [if_pos hne] at hd'
      rcases mem_insertUnique hd' with h | h
      · exact hacc d' h
      · subst h
        have hc := hcaps d' (List.mem_cons_self d' rest)
        exact ⟨by simp [isChildContextOf, hc.1, hne], hc.2⟩
    · rw [if_neg hne] at hd'
      exact hacc d' hd'

mutual

/-- The walker only accumulates declarations satisfying the capture
invariant, given that nested closures' capture sets are correctly
computed. -/
theorem walkTree_inv (cl : List Nat → Bool) (cur : List Nat) :
    ∀ (t : CapTree) (acc : List CapDecl), capsWF cl cur t = true →
      (∀ d ∈ acc, capOK cl cur d) → ∀ d ∈ walkTree cl cur acc t, capOK cl cur d
  | .declRef d0, acc, _, hacc => by
      intro d hd
      cases hc : isChildContextOf cur d0.ctx with
      | false =>
        simp only [walkTree, hc, Bool.not_false, if_pos] at hd
        exact hacc d hd
      | true =>
        cases hv : d0.isVar with
        | true =>
          simp only [walkTree, hc, hv, Bool.not_true, Bool.false_and,
            Bool.not_false, if_neg, ite_false, Bool.false_eq_true] at hd
          rcases mem_insertUnique hd with h | h
          · exact hacc d h
          · subst h
            exact ⟨hc, Or.inl hv⟩
        | false =>
          cases hl : cl d0.ctx with
          | false =>
            simp only [walkTree, hc, hv, hl] at hd
            simp at hd
            exact hacc d hd
          | true =>
            simp only [walkTree, hc, hv, hl] at hd
            simp at hd
            rcases mem_insertUnique hd with h | h
            · exact hacc d h
            · subst h
              exact ⟨hc, Or.inr hl⟩
  | .closure caps, acc, hwf, hacc => by
      have hcaps : ∀ d ∈ caps,
          ctxIsPrefixOf d.ctx cur = true ∧ (d.isVar = true ∨ cl d.ctx = true) := by
        intro d hd
        have h := (List.all_eq_true.mp hwf) d hd
        simp only [Bool.and_eq_true, Bool.or_eq_true] at h
        exact h
      intro d hd
      rw [walkTree] at hd
      exact closure_merge_inv cl cur caps acc hacc hcaps d hd
  | .node ts, acc, hwf, hacc => walkTreeList_inv cl cur ts acc hwf hacc

/-- `walkTree_inv` over a node's children. -/
theorem walkTreeList_inv (cl : List Nat → Bool) (cur : List Nat) :
    ∀ (ts : List CapTree) (acc : List CapDecl), capsWFList cl cur ts = true →
      (∀ d ∈ acc, capOK cl cur d) → ∀ d ∈ walkTreeList cl cur acc ts, capOK cl cur d
  | [], acc, _, hacc => by
      intro d hd
      rw [walkTreeList] at hd
      exact hacc d hd
  | t :: ts', acc, hwf, hacc => by
      rw [capsWFList, Bool.and_eq_true] at hwf
      intro d hd
      rw [walkTreeList] at hd
      exact walkTreeList_inv cl cur ts' (walkTree cl cur acc t) hwf.2
        (walkTree_inv cl cur t acc hwf.1 hacc) d hd

end

/-- Claim C8: when every syntactically nested closure's capture set is
already correctly computed, the capture set computed for a closure
contains only declarations whose context strictly encloses the closure —
never declarations local to the closure itself or internal to a nested
closure (whose contexts are not strict ancestors) — and never
non-variable declarations from non-local contexts; in particular a
nested closure's captures are merged in only when they originate outside
the closure's own scope. -/
theorem computeCaptures_only_enclosing (cl : List Nat → Bool) (cur : List Nat)
    (body : CapTree) (hwf : capsWF cl cur body = true) :
    ∀ d ∈ computeCaptures cl cur body,
      isChildContextOf cur d.ctx = true ∧ (d.isVar = true ∨ cl d.ctx = true) := by
  intro d hd
  have h := walkTree_inv cl cur body [] hwf (by simp) d hd
  simpa [capOK] using h

/-- Localness oracle for the capture witness: only the root (module)
context is non-local. -/
def clW : List Nat → Bool := fun p => !(p == [])

/-- Closure body for the capture witness, for a closure at context
`[0, 1]`: a reference to a variable of an enclosing scope, a reference
to a declaration of an inner scope, and a nested closure capturing one
outer declaration and one declaration of the current closure. -/
def bodyW : CapTree :=
  .node [.declRef ⟨10, true, [0]⟩, .declRef ⟨11, false, [0, 1, 2]⟩,
         .closure [⟨12, true, []⟩, ⟨13, true, [0, 1]⟩]]

/-- Witness for `computeCaptures_only_enclosing` at a concrete body. -/
theorem computeCaptures_only_enclosing_witness :
    capsWF clW [0, 1] bodyW = true
      ∧ (⟨10, true, [0]⟩ : CapDecl) ∈ computeCaptures clW [0, 1] bodyW
      ∧ (isChildContextOf [0, 1] [0] = true ∧ ((true : Bool) = true ∨ clW [0] = true)) :=
  ⟨by decide, by decide, by
    have h := computeCaptures_only_enclosing clW [0, 1] bodyW (by decide)
      ⟨10, true, [0]⟩ (by decide)
    simpa using h⟩

end SwiftSema
